import Mathlib

/-!
# Expense ledger (`expenses/expenses.go`)

A shallow embedding of the Go package `expenses` and proofs of the properties
its specification states.

Modelling choices

* A Go slice is either `nil` or a (possibly empty) backing sequence; the two
  are kept apart by `Slice`, because `[]Record{}` is an empty slice that is
  not `nil`.
* `Day`, `From`, `To` are Go `int`s that are only ever compared, never added:
  they are integers.
* `Amount` is a Go `float64`.  Only its zero value and its `+` are used by the
  package, so the embedding is generic in a type `F` with a `0` and a `+`
  about which nothing is assumed (no associativity, no neutral element).
  Every theorem therefore holds for IEEE addition in particular.
* `Category` is a Go `string`, compared with `==` only; it is a `String`, whose
  equality is likewise exact (case and blanks count).
* An `error` is `none` for Go's `nil` and `some msg` for `errors.New(msg)`.
* A `for _, x := range s` loop is a left fold over the elements of `s` whose
  accumulator is the tuple of local variables the body assigns.
-/

namespace Expenses

/-! ## Go slices -/

/-- A Go slice value: the `nil` slice, or a slice over some elements. -/
inductive Slice (α : Type) where
  | nil : Slice α
  | mk (elems : List α) : Slice α
  deriving DecidableEq, Repr

/-- The elements a `range` loop visits, in order; none for `nil`. -/
def Slice.toList {α : Type} : Slice α → List α
  | Slice.nil => []
  | Slice.mk elems => elems

/-- Go's `len(s)`. -/
def Slice.len {α : Type} (s : Slice α) : Nat :=
  s.toList.length

/-- Go's `s == nil`. -/
def Slice.isNil {α : Type} : Slice α → Bool
  | Slice.nil => true
  | Slice.mk _ => false

/-- Go's `append(s, x)`: the result always has a backing sequence. -/
def Slice.append {α : Type} (s : Slice α) (x : α) : Slice α :=
  Slice.mk (s.toList ++ [x])

/-! ## Data model -/

/-- Record represents an expense record. -/
structure Record (F : Type) where
  Day : Int
  Amount : F
  Category : String

/-- DaysPeriod represents a period of days for expenses. -/
structure DaysPeriod where
  From : Int
  To : Int
  deriving DecidableEq, Repr

/-! ## Operations -/

section Operations

variable {F : Type}

/-- Filter returns the records for which the predicate function returns true. -/
def Filter (in_ : Slice (Record F)) (predicate : Record F → Bool) : Slice (Record F) :=
  in_.toList.foldl
    (fun filteredRecords expenseRecord =>
      let isValid := predicate expenseRecord
      if isValid then filteredRecords.append expenseRecord else filteredRecords)
    (Slice.mk [])

/-- ByDaysPeriod returns the predicate that is true when the day of the record
is inside the period. -/
def ByDaysPeriod (p : DaysPeriod) : Record F → Bool :=
  fun rec =>
    if decide (rec.Day ≥ p.From) && decide (rec.Day ≤ p.To) then true else false

/-- ByCategory returns the predicate that is true when the category of the
record is the provided category. -/
def ByCategory (c : String) : Record F → Bool :=
  fun rec => decide (rec.Category = c)

/-- TotalByPeriod returns the total amount of expenses for records inside the
period `p`. -/
def TotalByPeriod [Zero F] [Add F] (in_ : Slice (Record F)) (p : DaysPeriod) : F :=
  in_.toList.foldl
    (fun totalExpense rec =>
      if decide (rec.Day ≥ p.From) && decide (rec.Day ≤ p.To) then
        totalExpense + rec.Amount
      else totalExpense)
    0

/-- One iteration of the loop of `CategoryExpenses` on the pair
`(hasCategory, totalExpense)`. -/
def categoryStep [Add F] (p : DaysPeriod) (c : String) (st : Bool × F) (rec : Record F) :
    Bool × F :=
  let hasCategory := if decide (rec.Category = c) then true else st.1
  let totalExpense :=
    if decide (rec.Day ≥ p.From) && decide (rec.Day ≤ p.To) && decide (rec.Category = c) then
      st.2 + rec.Amount
    else st.2
  (hasCategory, totalExpense)

/-- CategoryExpenses returns the total amount of expenses for records in
category `c` that are also inside the period `p`, and an error when no record
of the list belongs to the category. -/
def CategoryExpenses [Zero F] [Add F] (in_ : Slice (Record F)) (p : DaysPeriod) (c : String) :
    F × Option String :=
  let st := in_.toList.foldl (categoryStep p c) (false, 0)
  if !st.1 then (0, some "unknown category entertainment") else (st.2, none)

end Operations

/-! ## Reference definitions

The words of the specification, as list functions to compare the loops with. -/

section Reference

variable {F : Type}

/-- The reference sum of the specification: the amounts of `l` added one after
the other, in list order, onto `acc`. -/
def sumAmountsFrom [Add F] (acc : F) (l : List (Record F)) : F :=
  l.foldl (fun total r => total + r.Amount) acc

/-- The day-range test of the specification, `p.From ≤ r.Day ≤ p.To`. -/
def inPeriod (p : DaysPeriod) (r : Record F) : Bool :=
  decide (p.From ≤ r.Day ∧ r.Day ≤ p.To)

/-- The selection test of the specification for `CategoryExpenses`: inside the
period and of the category. -/
def inPeriodAndCategory (p : DaysPeriod) (c : String) (r : Record F) : Bool :=
  decide (p.From ≤ r.Day ∧ r.Day ≤ p.To ∧ r.Category = c)

end Reference

end Expenses

/-!
# Sorting room (`sorting-room/sorting_room.go`)

Modelling choices

* A value of an interface type is given by its dynamic type: the concrete type
  `FancyNumber`, or some other type, described by what its methods return.
* `strconv.Atoi` belongs to Go's standard library.  It is documented as
  `ParseInt(s, 10, 0)` converted to `int`; `ParseInt` and `ParseUint` are
  embedded for base 10, with the width of `int` (`strconv.IntSize`, 32 or 64)
  as the parameter `intSize`.  They scan bytes; here they scan characters,
  which accepts the same strings, since only the ASCII signs and digits are
  accepted at all.
* `float64`, `strconv.ParseFloat` and the verb `%.1f` are kept abstract, in
  `Float64Lib`.
-/

namespace Sorting

/-! ## Standard library: floating point, kept abstract -/

/-- The floating-point operations of the package: the conversion `float64(n)`,
the value `strconv.ParseFloat(s, 64)` returns (its error is dropped by the
caller) and the text `%.1f` prints. -/
structure Float64Lib (F : Type) where
  ofInt : Int → F
  parseFloat : String → F
  formatF1 : F → String

/-! ## Standard library: `strconv.Atoi` -/

/-- The two error kinds of `strconv.NumError`: Go's `ErrRange`, and Go's
`ErrSyntax` under the name `ErrSyntaxKind`. -/
inductive NumError where
  | ErrRange : NumError
  | ErrSyntaxKind : NumError
  deriving DecidableEq, Repr

/-- The largest `uint64`. -/
def maxUint64 : Nat := 2 ^ 64 - 1

/-- The loop of `ParseUint` for base 10: `n` is the value read so far, `maxVal`
is `1<<bitSize - 1`.  A character that is not a decimal digit is a syntax
error with value 0; a value that passes `maxVal` (or would wrap around
`uint64`) is a range error with value `maxVal`, raised as soon as it is
seen. -/
def parseUintLoop (maxVal : Nat) : List Char → Nat → Nat × Option NumError
  | [], n => (n, none)
  | c :: cs, n =>
    if decide ('0'.toNat ≤ c.toNat) && decide (c.toNat ≤ '9'.toNat) then
      let d := c.toNat - '0'.toNat
      if n ≥ maxUint64 / 10 + 1 then (maxVal, some NumError.ErrRange)
      else
        let n10 := n * 10
        let n1 := (n10 + d) % 2 ^ 64
        if n1 < n10 ∨ n1 > maxVal then (maxVal, some NumError.ErrRange)
        else parseUintLoop maxVal cs n1
    else (0, some NumError.ErrSyntaxKind)

/-- The call `strconv.ParseUint(s, 10, bitSize)`, on the characters of `s`. -/
def ParseUint (bitSize : Nat) (s : List Char) : Nat × Option NumError :=
  match s with
  | [] => (0, some NumError.ErrSyntaxKind)
  | _ :: _ => parseUintLoop (2 ^ bitSize - 1) s 0

/-- The call `strconv.ParseInt(s, 10, 0)`, on the characters of `s`, for an
`int` of `intSize` bits: an optional sign, then `ParseUint`; a syntax error
gives 0, a value out of range gives the nearest bound of `int`. -/
def ParseInt (intSize : Nat) (s : List Char) : Int × Option NumError :=
  match s with
  | [] => (0, some NumError.ErrSyntaxKind)
  | c :: cs =>
    let neg : Bool := decide (c = '-')
    let body : List Char := if c = '+' ∨ c = '-' then cs else c :: cs
    let r := ParseUint intSize body
    if r.2 = some NumError.ErrSyntaxKind then (0, r.2)
    else
      let cutoff : Nat := 2 ^ (intSize - 1)
      if !neg && decide (r.1 ≥ cutoff) then ((cutoff : Int) - 1, some NumError.ErrRange)
      else if neg && decide (r.1 > cutoff) then (-(cutoff : Int), some NumError.ErrRange)
      else (if neg then -(r.1 : Int) else (r.1 : Int), none)

/-- The call `strconv.Atoi(s)`: `ParseInt(s, 10, 0)` converted to `int`. -/
def Atoi (intSize : Nat) (s : String) : Int × Option NumError :=
  ParseInt intSize s.data

/-! ## Data model -/

/-- A value of interface type `NumberBox`, given by what `Number()` returns. -/
structure NumberBox where
  Number : Int
  deriving DecidableEq, Repr

/-- The struct `FancyNumber`. -/
structure FancyNumber where
  n : String
  deriving DecidableEq, Repr

/-- The method `Value` of `FancyNumber`. -/
def FancyNumber.Value (i : FancyNumber) : String :=
  i.n

/-- A value of interface type `FancyNumberBox`: a `FancyNumber`, a value of
any other type with a method `Value()` (given by what that method returns), or
the `nil` interface. -/
inductive FancyNumberBox where
  | fancyNumber (v : FancyNumber) : FancyNumberBox
  | other (value : String) : FancyNumberBox
  | nil : FancyNumberBox
  deriving DecidableEq, Repr

/-- A value of type `interface{}`: a `FancyNumber`, or a value of any other
dynamic type (the `nil` interface included), given by what its methods
`Number()` and `Value()` return when it has them. -/
inductive Any where
  | fancyNumber (v : FancyNumber) : Any
  | other (number : Option Int) (value : Option String) : Any
  deriving DecidableEq, Repr

/-- The `NumberBox` a value is, when its type has the method `Number()`;
`FancyNumber` has no such method. -/
def Any.asNumberBox : Any → Option NumberBox
  | Any.fancyNumber _ => none
  | Any.other number _ => number.map NumberBox.mk

/-! ## Operations -/

section Operations

variable {F : Type}

/-- DescribeNumber should return a string describing the number. -/
def DescribeNumber (lib : Float64Lib F) (f : F) : String :=
  "This is the number " ++ lib.formatF1 f

/-- DescribeNumberBox should return a string describing the NumberBox. -/
def DescribeNumberBox (lib : Float64Lib F) (nb : NumberBox) : String :=
  "This is a box containing the number " ++ lib.formatF1 (lib.ofInt nb.Number)

/-- ExtractFancyNumber should return the integer value for a FancyNumber and 0
if any other FancyNumberBox is supplied. -/
def ExtractFancyNumber (intSize : Nat) (fnb : FancyNumberBox) : Int :=
  match fnb with
  | FancyNumberBox.fancyNumber v => (Atoi intSize v.Value).1
  | FancyNumberBox.other _ => 0
  | FancyNumberBox.nil => 0

/-- DescribeFancyNumberBox should return a string describing the
FancyNumberBox. -/
def DescribeFancyNumberBox (lib : Float64Lib F) (fnb : FancyNumberBox) : String :=
  match fnb with
  | FancyNumberBox.fancyNumber v =>
    let fancyFloat := lib.parseFloat v.Value
    "This is a fancy box containing the number " ++ lib.formatF1 fancyFloat
  | FancyNumberBox.other _ => "This is a fancy box containing the number 0.0"
  | FancyNumberBox.nil => "This is a fancy box containing the number 0.0"

/-- DescribeAnything should return a string describing whatever it contains. -/
def DescribeAnything (lib : Float64Lib F) (i : Any) : String :=
  match i with
  | Any.fancyNumber fancyNum => DescribeFancyNumberBox lib (FancyNumberBox.fancyNumber fancyNum)
  | Any.other _ _ => "Return to sender"

end Operations

/-! ## Reference definitions -/

/-- The number a sequence of decimal digits denotes, read onto `n`. -/
def digitsValueFrom (n : Nat) (ds : List Char) : Nat :=
  ds.foldl (fun acc c => acc * 10 + (c.toNat - 48)) n

/-- The digits of a literal: what follows its sign, if it has one. -/
def literalDigits (s : String) : List Char :=
  match s.data with
  | [] => []
  | c :: cs => if c = '+' ∨ c = '-' then cs else c :: cs

/-- A decimal integer literal: an optional sign `+` or `-`, then one or more
decimal digits. -/
def isDecimalLiteral (s : String) : Bool :=
  !(literalDigits s).isEmpty && (literalDigits s).all Char.isDigit

/-- The integer a decimal integer literal denotes. -/
def literalValue (s : String) : Int :=
  if s.data.head? = some '-' then -(digitsValueFrom 0 (literalDigits s) : Int)
  else (digitsValueFrom 0 (literalDigits s) : Int)

end Sorting

namespace Expenses

/-! ## Loop lemmas -/

section Lemmas

variable {F : Type}

theorem filter_loop (predicate : Record F → Bool) (l : List (Record F)) (acc : List (Record F)) :
    l.foldl
        (fun filteredRecords expenseRecord =>
          let isValid := predicate expenseRecord
          if isValid then filteredRecords.append expenseRecord else filteredRecords)
        (Slice.mk acc)
      = Slice.mk (acc ++ l.filter predicate) := by
  induction l generalizing acc with
  | nil => simp
  | cons x xs ih =>
    simp only [List.foldl_cons, List.filter_cons]
    cases hx : predicate x with
    | true =>
      have hstep : (Slice.mk acc).append x = Slice.mk (acc ++ [x]) := rfl
      simp only [if_true, hstep, ih, List.append_assoc, List.singleton_append]
    | false => simp [ih]

theorem Filter_eq (in_ : Slice (Record F)) (predicate : Record F → Bool) :
    Filter in_ predicate = Slice.mk (in_.toList.filter predicate) := by
  unfold Filter
  rw [filter_loop]
  simp

theorem total_loop [Add F] (p : DaysPeriod) (l : List (Record F)) (acc : F) :
    l.foldl
        (fun totalExpense rec =>
          if decide (rec.Day ≥ p.From) && decide (rec.Day ≤ p.To) then
            totalExpense + rec.Amount
          else totalExpense)
        acc
      = sumAmountsFrom acc (l.filter (inPeriod p)) := by
  induction l generalizing acc with
  | nil => rfl
  | cons x xs ih =>
    simp only [List.foldl_cons, List.filter_cons, ih]
    by_cases hx : p.From ≤ x.Day ∧ x.Day ≤ p.To
    · simp [inPeriod, hx, sumAmountsFrom]
    · have hx2 : ¬ (x.Day ≥ p.From ∧ x.Day ≤ p.To) := hx
      simp [inPeriod, hx, hx2]

theorem TotalByPeriod_eq [Zero F] [Add F] (in_ : Slice (Record F)) (p : DaysPeriod) :
    TotalByPeriod in_ p = sumAmountsFrom 0 (in_.toList.filter (inPeriod p)) := by
  unfold TotalByPeriod
  exact total_loop p in_.toList 0

theorem category_loop [Add F] (p : DaysPeriod) (c : String) (l : List (Record F))
    (b : Bool) (acc : F) :
    l.foldl (categoryStep p c) (b, acc)
      = (b || l.any (fun r => decide (r.Category = c)),
          sumAmountsFrom acc (l.filter (inPeriodAndCategory p c))) := by
  induction l generalizing b acc with
  | nil => simp [sumAmountsFrom]
  | cons x xs ih =>
    simp only [List.foldl_cons, categoryStep, ih, List.any_cons, List.filter_cons]
    by_cases hc : x.Category = c
    · by_cases hd : p.From ≤ x.Day ∧ x.Day ≤ p.To
      · simp [inPeriodAndCategory, hc, hd, sumAmountsFrom]
      · have hd3 : ¬ (p.From ≤ x.Day ∧ x.Day ≤ p.To ∧ x.Category = c) :=
          fun h => hd ⟨h.1, h.2.1⟩
        have hd4 : (decide (x.Day ≥ p.From) && decide (x.Day ≤ p.To)) = false := by
          simpa using hd
        simp [inPeriodAndCategory, hc, hd4]
    · have hd3 : ¬ (p.From ≤ x.Day ∧ x.Day ≤ p.To ∧ x.Category = c) :=
        fun h => hc h.2.2
      simp [inPeriodAndCategory, hc, hd3]

theorem any_category_iff (c : String) (l : List (Record F)) :
    l.any (fun r => decide (r.Category = c)) = true ↔ ∃ r ∈ l, r.Category = c := by
  simp

theorem CategoryExpenses_eq [Zero F] [Add F] (in_ : Slice (Record F)) (p : DaysPeriod)
    (c : String) :
    CategoryExpenses in_ p c =
      if in_.toList.any (fun r => decide (r.Category = c)) then
        (sumAmountsFrom 0 (in_.toList.filter (inPeriodAndCategory p c)), none)
      else (0, some "unknown category entertainment") := by
  unfold CategoryExpenses
  rw [category_loop]
  cases h : in_.toList.any (fun r => decide (r.Category = c)) <;> simp

end Lemmas

/-! ## Filter -/

/-- C1: for every record slice and predicate, `Filter` returns exactly the
records on which the predicate is true, in their original order: it is the
list filter of the input by the predicate. -/
theorem Filter_eq_list_filter {F : Type} (R : Slice (Record F)) (P : Record F → Bool) :
    (Filter R P).toList = List.filter P R.toList := by
  rw [Filter_eq]
  rfl

/-! ## CategoryExpenses: the error -/

/-- C2: `CategoryExpenses` returns an error exactly when no record of the whole
input has the requested category; whether it does is the same for any two
periods, whatever their bounds. -/
theorem CategoryExpenses_error_iff_category_absent {F : Type} [Zero F] [Add F]
    (R : Slice (Record F)) (p : DaysPeriod) (c : String) :
    ((CategoryExpenses R p c).2 ≠ none ↔ ¬ ∃ r ∈ R.toList, r.Category = c) ∧
      ∀ p1 p2 : DaysPeriod,
        ((CategoryExpenses R p1 c).2 ≠ none ↔ (CategoryExpenses R p2 c).2 ≠ none) := by
  have key : ∀ q : DaysPeriod,
      ((CategoryExpenses R q c).2 ≠ none ↔ ¬ ∃ r ∈ R.toList, r.Category = c) := by
    intro q
    rw [CategoryExpenses_eq, ← any_category_iff]
    cases h : R.toList.any (fun r => decide (r.Category = c)) <;> simp
  exact ⟨key p, fun p1 p2 => (key p1).trans (key p2).symm⟩

/-! ## CategoryExpenses: the total -/

/-- C3: when some record of the input has category `c`, `CategoryExpenses`
succeeds and its total is the sum, added left to right from `0` in input order,
of the amounts of exactly the records inside the period and of category `c`. -/
theorem CategoryExpenses_total_of_present {F : Type} [Zero F] [Add F]
    (R : Slice (Record F)) (p : DaysPeriod) (c : String)
    (h : ∃ r ∈ R.toList, r.Category = c) :
    CategoryExpenses R p c =
      (List.foldl (fun total a => total + a) 0
          (List.map (fun r => r.Amount)
            (List.filter
              (fun r => decide (p.From ≤ r.Day ∧ r.Day ≤ p.To ∧ r.Category = c)) R.toList)),
        none) := by
  rw [CategoryExpenses_eq, (any_category_iff c R.toList).mpr h, if_pos rfl]
  simp only [sumAmountsFrom, List.foldl_map]
  rfl

/-- C3, at an input: two records of the category, one inside the period. -/
theorem CategoryExpenses_total_of_present_witness :
    (∃ r ∈ (Slice.mk [(⟨1, 10, "food"⟩ : Record Int), ⟨7, 5, "food"⟩, ⟨8, 3, "rent"⟩]).toList,
        r.Category = "food") ∧
      CategoryExpenses (Slice.mk [(⟨1, 10, "food"⟩ : Record Int), ⟨7, 5, "food"⟩, ⟨8, 3, "rent"⟩])
          ⟨5, 10⟩ "food" =
        (List.foldl (fun total a => total + a) 0
            (List.map (fun r => r.Amount)
              (List.filter
                (fun r => decide ((5 : Int) ≤ r.Day ∧ r.Day ≤ 10 ∧ r.Category = "food"))
                (Slice.mk [(⟨1, 10, "food"⟩ : Record Int), ⟨7, 5, "food"⟩,
                  ⟨8, 3, "rent"⟩]).toList)),
          none) :=
  have h : ∃ r ∈ (Slice.mk [(⟨1, 10, "food"⟩ : Record Int), ⟨7, 5, "food"⟩,
      ⟨8, 3, "rent"⟩]).toList, r.Category = "food" :=
    ⟨⟨1, 10, "food"⟩, List.mem_cons_self _ _, rfl⟩
  ⟨h, CategoryExpenses_total_of_present _ ⟨5, 10⟩ "food" h⟩

/-! ## TotalByPeriod -/

/-- C4: `TotalByPeriod` is the left fold from `0`, in input order, of `+` over
the amounts of the records whose day lies in the period (both bounds
included).  On the records `(1, ten, food)`, `(20, five, food)` and the period
`1..1` only the first amount is added: the result is `ten`, given that adding
`ten` to the zero value yields `ten`, as it does for the number 10. -/
theorem TotalByPeriod_eq_foldl {F : Type} [Zero F] [Add F]
    (R : Slice (Record F)) (p : DaysPeriod) (ten five : F) (h : (0 : F) + ten = ten) :
    TotalByPeriod R p =
        List.foldl (fun total a => total + a) 0
          (List.map (fun r => r.Amount)
            (List.filter (fun r => decide (p.From ≤ r.Day ∧ r.Day ≤ p.To)) R.toList)) ∧
      TotalByPeriod (Slice.mk [(⟨1, ten, "food"⟩ : Record F), ⟨20, five, "food"⟩]) ⟨1, 1⟩
        = ten := by
  refine ⟨?_, ?_⟩
  · rw [TotalByPeriod_eq]
    simp only [sumAmountsFrom, List.foldl_map]
    rfl
  · simpa [TotalByPeriod, Slice.toList] using h

/-- C4, at an input: rational amounts 10 and 5, period `1..1`. -/
theorem TotalByPeriod_eq_foldl_witness :
    (0 : ℚ) + 10 = 10 ∧
      TotalByPeriod (Slice.mk [(⟨1, 10, "food"⟩ : Record ℚ), ⟨20, 5, "food"⟩]) ⟨1, 1⟩ = 10 :=
  ⟨zero_add 10,
    (TotalByPeriod_eq_foldl (Slice.mk [(⟨1, 10, "food"⟩ : Record ℚ), ⟨20, 5, "food"⟩]) ⟨1, 1⟩
      10 5 (zero_add 10)).2⟩

/-! ## The predicates -/

/-- C5: the predicate `ByDaysPeriod p` is true on a record exactly when the
record's day is at least `p.From` and at most `p.To`; the amount and the
category play no part; for the period `5..10` it is true on days 5 and 10 and
false on days 4 and 11. -/
theorem ByDaysPeriod_true_iff {F : Type} (p : DaysPeriod) (r : Record F) :
    (ByDaysPeriod p r = true ↔ r.Day ≥ p.From ∧ r.Day ≤ p.To) ∧
      (∀ (a : F) (c : String), ByDaysPeriod p ⟨r.Day, a, c⟩ = ByDaysPeriod p r) ∧
      (∀ (a : F) (c : String),
        ByDaysPeriod ⟨5, 10⟩ (⟨5, a, c⟩ : Record F) = true ∧
        ByDaysPeriod ⟨5, 10⟩ (⟨10, a, c⟩ : Record F) = true ∧
        ByDaysPeriod ⟨5, 10⟩ (⟨4, a, c⟩ : Record F) = false ∧
        ByDaysPeriod ⟨5, 10⟩ (⟨11, a, c⟩ : Record F) = false) := by
  refine ⟨?_, ?_, ?_⟩
  · simp [ByDaysPeriod]
  · intro a c
    rfl
  · intro a c
    simp [ByDaysPeriod]

/-- C6: the predicate `ByCategory c` is true on a record exactly when the
record's category is the string `c` itself; the day and the amount play no
part, and a category that differs in case or by a blank does not match. -/
theorem ByCategory_true_iff {F : Type} (c : String) (r : Record F) :
    (ByCategory c r = true ↔ r.Category = c) ∧
      (∀ (d : Int) (a : F), ByCategory c ⟨d, a, r.Category⟩ = ByCategory c r) ∧
      (∀ (d : Int) (a : F),
        ByCategory "food" (⟨d, a, "food"⟩ : Record F) = true ∧
        ByCategory "food" (⟨d, a, "Food"⟩ : Record F) = false ∧
        ByCategory "food" (⟨d, a, " food"⟩ : Record F) = false ∧
        ByCategory "food" (⟨d, a, "food "⟩ : Record F) = false) := by
  refine ⟨?_, ?_, ?_⟩
  · simp [ByCategory]
  · intro d a
    rfl
  · intro d a
    refine ⟨?_, ?_, ?_, ?_⟩ <;> simp [ByCategory]

/-! ## Category present, nothing in the period -/

/-- C7: when some record of the input has category `c` but none has both
category `c` and a day inside the period, `CategoryExpenses` succeeds with
total `0`; so it does on the single record `(1, a, food)` with the period
`5..10` and the category `food`. -/
theorem CategoryExpenses_zero_of_none_in_period {F : Type} [Zero F] [Add F]
    (R : Slice (Record F)) (p : DaysPeriod) (c : String)
    (hcat : ∃ r ∈ R.toList, r.Category = c)
    (hout : ∀ r ∈ R.toList, ¬ (r.Category = c ∧ p.From ≤ r.Day ∧ r.Day ≤ p.To)) :
    CategoryExpenses R p c = (0, none) ∧
      ∀ a : F, CategoryExpenses (Slice.mk [(⟨1, a, "food"⟩ : Record F)]) ⟨5, 10⟩ "food"
        = (0, none) := by
  refine ⟨?_, ?_⟩
  · rw [CategoryExpenses_eq, (any_category_iff c R.toList).mpr hcat, if_pos rfl]
    have hnil : R.toList.filter (inPeriodAndCategory p c) = [] := by
      rw [List.filter_eq_nil_iff]
      intro r hr
      have := hout r hr
      simp only [inPeriodAndCategory, decide_eq_true_eq]
      exact fun hh => this ⟨hh.2.2, hh.1, hh.2.1⟩
    rw [hnil]
    rfl
  · intro a
    simp [CategoryExpenses, categoryStep, Slice.toList]

/-- C7, at an input: the category `food` occurs on day 1 and on day 12 only. -/
theorem CategoryExpenses_zero_of_none_in_period_witness :
    CategoryExpenses
        (Slice.mk [(⟨1, 10, "food"⟩ : Record Int), ⟨6, 4, "rent"⟩, ⟨12, 2, "food"⟩])
        ⟨5, 10⟩ "food" = (0, none) :=
  (CategoryExpenses_zero_of_none_in_period
    (Slice.mk [(⟨1, 10, "food"⟩ : Record Int), ⟨6, 4, "rent"⟩, ⟨12, 2, "food"⟩])
    ⟨5, 10⟩ "food"
    ⟨⟨1, 10, "food"⟩, List.mem_cons_self _ _, rfl⟩
    (by simp [Slice.toList])).1

/-! ## Periods with `From > To` -/

/-- C8: for a period whose `From` exceeds its `To`, `ByDaysPeriod` is false on
every record, `Filter` by it returns the empty slice and `TotalByPeriod` is
`0`, for every input. -/
theorem inverted_period_matches_nothing {F : Type} [Zero F] [Add F]
    (p : DaysPeriod) (h : p.From > p.To) :
    (∀ r : Record F, ByDaysPeriod p r = false) ∧
      (∀ R : Slice (Record F), Filter R (ByDaysPeriod p) = Slice.mk []) ∧
      (∀ R : Slice (Record F), TotalByPeriod R p = 0) := by
  have hby : ∀ r : Record F, ByDaysPeriod p r = false := by
    intro r
    have hno : ¬ (r.Day ≥ p.From ∧ r.Day ≤ p.To) := by omega
    simpa [ByDaysPeriod] using hno
  refine ⟨hby, ?_, ?_⟩
  · intro R
    rw [Filter_eq]
    congr 1
    rw [List.filter_eq_nil_iff]
    intro r _
    simp [hby r]
  · intro R
    rw [TotalByPeriod_eq]
    have hnil : R.toList.filter (inPeriod p) = [] := by
      rw [List.filter_eq_nil_iff]
      intro r _
      simp only [inPeriod, decide_eq_true_eq]
      omega
    rw [hnil]
    rfl

/-- C8, at an input: the period `10..5` on two records dated inside `5..10`. -/
theorem inverted_period_matches_nothing_witness :
    (10 : Int) > 5 ∧
      Filter (Slice.mk [(⟨5, 3, "food"⟩ : Record Int), ⟨10, 4, "rent"⟩])
        (ByDaysPeriod ⟨10, 5⟩) = Slice.mk [] ∧
      TotalByPeriod (Slice.mk [(⟨5, 3, "food"⟩ : Record Int), ⟨10, 4, "rent"⟩]) ⟨10, 5⟩ = 0 :=
  ⟨by decide,
    (inverted_period_matches_nothing ⟨10, 5⟩ (by decide)).2.1 _,
    (inverted_period_matches_nothing ⟨10, 5⟩ (by decide)).2.2 _⟩

/-! ## Filter: invariants -/

/-- C9: every record of `Filter R P` satisfies `P`, `Filter R P` is a
subsequence of `R` (same records, same relative order), and it is no longer
than `R`. -/
theorem Filter_sound_sublist_length {F : Type} (R : Slice (Record F)) (P : Record F → Bool) :
    (∀ r ∈ (Filter R P).toList, P r = true) ∧
      List.Sublist (Filter R P).toList R.toList ∧
      (Filter R P).len ≤ R.len := by
  rw [Filter_eq]
  refine ⟨?_, ?_, ?_⟩
  · intro r hr
    exact (List.mem_filter.mp hr).2
  · exact List.filter_sublist R.toList
  · exact List.length_filter_le P R.toList

/-- C10: `Filter` of an empty input, be it the `nil` slice or an empty one, and
more generally of an input no record of which satisfies the predicate, is the
empty slice `[]Record{}`, which is not `nil`. -/
theorem Filter_empty_not_nil {F : Type} (R : Slice (Record F)) (P : Record F → Bool)
    (h : ∀ r ∈ R.toList, P r = false) :
    (Filter Slice.nil P = Slice.mk [] ∧ Filter (Slice.mk []) P = Slice.mk []) ∧
      Filter R P = Slice.mk [] ∧
      (Filter R P).isNil = false ∧ (Filter R P).len = 0 := by
  have hR : Filter R P = Slice.mk [] := by
    rw [Filter_eq]
    congr 1
    rw [List.filter_eq_nil_iff]
    intro r hr
    simp [h r hr]
  refine ⟨⟨rfl, rfl⟩, hR, ?_, ?_⟩
  · rw [hR]
    rfl
  · rw [hR]
    rfl

/-- C10, at an input: no record of the input has the category asked for. -/
theorem Filter_empty_not_nil_witness :
    Filter (Slice.mk [(⟨1, 10, "food"⟩ : Record Int), ⟨2, 5, "rent"⟩]) (ByCategory "fuel")
        = Slice.mk [] ∧
      (Filter (Slice.mk [(⟨1, 10, "food"⟩ : Record Int), ⟨2, 5, "rent"⟩])
        (ByCategory "fuel")).isNil = false :=
  have h := Filter_empty_not_nil
    (Slice.mk [(⟨1, 10, "food"⟩ : Record Int), ⟨2, 5, "rent"⟩]) (ByCategory "fuel")
    (by simp [Slice.toList, ByCategory])
  ⟨h.2.1, h.2.2.1⟩

/-! ## Empty selections -/

/-- C11: `TotalByPeriod` of an empty input is `0` for every period, and so is
`TotalByPeriod` of any input none of whose records has its day inside the
period. -/
theorem TotalByPeriod_zero_of_none_in_period {F : Type} [Zero F] [Add F]
    (R : Slice (Record F)) (p : DaysPeriod)
    (h : ∀ r ∈ R.toList, ¬ (p.From ≤ r.Day ∧ r.Day ≤ p.To)) :
    (∀ q : DaysPeriod,
        TotalByPeriod (Slice.nil : Slice (Record F)) q = 0 ∧
        TotalByPeriod (Slice.mk [] : Slice (Record F)) q = 0) ∧
      TotalByPeriod R p = 0 := by
  refine ⟨fun q => ⟨rfl, rfl⟩, ?_⟩
  rw [TotalByPeriod_eq]
  have hnil : R.toList.filter (inPeriod p) = [] := by
    rw [List.filter_eq_nil_iff]
    intro r hr
    simpa [inPeriod] using h r hr
  rw [hnil]
  rfl

/-- C11, at an input: both records are dated outside `5..10`. -/
theorem TotalByPeriod_zero_of_none_in_period_witness :
    TotalByPeriod (Slice.mk [(⟨1, 10, "food"⟩ : Record Int), ⟨20, 5, "rent"⟩]) ⟨5, 10⟩ = 0 :=
  (TotalByPeriod_zero_of_none_in_period
    (Slice.mk [(⟨1, 10, "food"⟩ : Record Int), ⟨20, 5, "rent"⟩]) ⟨5, 10⟩
    (by simp [Slice.toList])).2

/-- C12: when no record of the input has category `c`, the total that
`CategoryExpenses` returns next to the error is `0`, whatever the amounts of
the records inside the period. -/
theorem CategoryExpenses_total_zero_of_absent {F : Type} [Zero F] [Add F]
    (R : Slice (Record F)) (p : DaysPeriod) (c : String)
    (h : ¬ ∃ r ∈ R.toList, r.Category = c) :
    (CategoryExpenses R p c).1 = 0 ∧ (CategoryExpenses R p c).2 ≠ none := by
  have hany : R.toList.any (fun r => decide (r.Category = c)) = false := by
    rw [← Bool.not_eq_true, any_category_iff]
    exact h
  rw [CategoryExpenses_eq, hany]
  simp

/-- C12, at an input: amounts 10 and 5 lie inside the period, under other
categories. -/
theorem CategoryExpenses_total_zero_of_absent_witness :
    (CategoryExpenses (Slice.mk [(⟨6, 10, "food"⟩ : Record Int), ⟨7, 5, "rent"⟩])
        ⟨5, 10⟩ "fuel").1 = 0 :=
  (CategoryExpenses_total_zero_of_absent
    (Slice.mk [(⟨6, 10, "food"⟩ : Record Int), ⟨7, 5, "rent"⟩]) ⟨5, 10⟩ "fuel"
    (by simp [Slice.toList])).1

/-! ## The error message -/

/-- C15: for two categories both absent from the input, the two errors carry
the same message, the fixed text `unknown category entertainment`, which does
not mention the category asked for. -/
theorem CategoryExpenses_error_message_fixed {F : Type} [Zero F] [Add F]
    (R : Slice (Record F)) (p : DaysPeriod) (c1 c2 : String)
    (h1 : ¬ ∃ r ∈ R.toList, r.Category = c1) (h2 : ¬ ∃ r ∈ R.toList, r.Category = c2) :
    (CategoryExpenses R p c1).2 = some "unknown category entertainment" ∧
      (CategoryExpenses R p c2).2 = some "unknown category entertainment" ∧
      (CategoryExpenses R p c1).2 = (CategoryExpenses R p c2).2 := by
  have key : ∀ c : String, (¬ ∃ r ∈ R.toList, r.Category = c) →
      (CategoryExpenses R p c).2 = some "unknown category entertainment" := by
    intro c h
    have hany : R.toList.any (fun r => decide (r.Category = c)) = false := by
      rw [← Bool.not_eq_true, any_category_iff]
      exact h
    rw [CategoryExpenses_eq, hany]
    simp
  exact ⟨key c1 h1, key c2 h2, (key c1 h1).trans (key c2 h2).symm⟩

/-- C15, at an input: the categories `fuel` and `travel` are both absent. -/
theorem CategoryExpenses_error_message_fixed_witness :
    (CategoryExpenses (Slice.mk [(⟨6, 10, "food"⟩ : Record Int)]) ⟨5, 10⟩ "fuel").2
        = some "unknown category entertainment" ∧
      (CategoryExpenses (Slice.mk [(⟨6, 10, "food"⟩ : Record Int)]) ⟨5, 10⟩ "travel").2
        = some "unknown category entertainment" :=
  have h := CategoryExpenses_error_message_fixed
    (Slice.mk [(⟨6, 10, "food"⟩ : Record Int)]) ⟨5, 10⟩ "fuel" "travel"
    (by simp [Slice.toList]) (by simp [Slice.toList])
  ⟨h.1, h.2.1⟩

/-! ## One pass against filter-then-total -/

/-- C16: for a category `c` present in the input, the total of
`CategoryExpenses R p c` is `TotalByPeriod (Filter R (ByCategory c)) p`: the
single loop performs the same additions, in the same order, as filtering by
category first and totalling by period afterwards. -/
theorem CategoryExpenses_eq_TotalByPeriod_Filter {F : Type} [Zero F] [Add F]
    (R : Slice (Record F)) (p : DaysPeriod) (c : String)
    (h : ∃ r ∈ R.toList, r.Category = c) :
    (CategoryExpenses R p c).1 = TotalByPeriod (Filter R (ByCategory c)) p := by
  rw [CategoryExpenses_eq, (any_category_iff c R.toList).mpr h, if_pos rfl,
    TotalByPeriod_eq, Filter_eq]
  simp only [Slice.toList, List.filter_filter]
  congr 2
  funext r
  simp only [inPeriod, inPeriodAndCategory, ByCategory, ← Bool.decide_and]
  exact decide_eq_decide.mpr and_assoc.symm

/-- C16, at an input: the category `food` occurs inside and outside the
period, next to another category. -/
theorem CategoryExpenses_eq_TotalByPeriod_Filter_witness :
    (CategoryExpenses
        (Slice.mk [(⟨1, 10, "food"⟩ : Record Int), ⟨7, 5, "food"⟩, ⟨8, 3, "rent"⟩])
        ⟨5, 10⟩ "food").1 =
      TotalByPeriod
        (Filter (Slice.mk [(⟨1, 10, "food"⟩ : Record Int), ⟨7, 5, "food"⟩, ⟨8, 3, "rent"⟩])
          (ByCategory "food"))
        ⟨5, 10⟩ :=
  CategoryExpenses_eq_TotalByPeriod_Filter
    (Slice.mk [(⟨1, 10, "food"⟩ : Record Int), ⟨7, 5, "food"⟩, ⟨8, 3, "rent"⟩])
    ⟨5, 10⟩ "food" ⟨⟨1, 10, "food"⟩, List.mem_cons_self _ _, rfl⟩

/-- C17: `TotalByPeriod R p` is the left-to-right sum from `0` of the amounts
of `Filter R (ByDaysPeriod p)`, and totalling that filtered slice over the
same period gives `TotalByPeriod R p` again: the day test written out in
`TotalByPeriod` selects the records that `ByDaysPeriod` selects. -/
theorem TotalByPeriod_eq_sum_Filter_ByDaysPeriod {F : Type} [Zero F] [Add F]
    (R : Slice (Record F)) (p : DaysPeriod) :
    TotalByPeriod R p =
        List.foldl (fun total a => total + a) 0
          (List.map (fun r => r.Amount) (Filter R (ByDaysPeriod p)).toList) ∧
      TotalByPeriod (Filter R (ByDaysPeriod p)) p = TotalByPeriod R p := by
  have hpred : (ByDaysPeriod p : Record F → Bool) = inPeriod p := by
    funext r
    simp [ByDaysPeriod, inPeriod]
  refine ⟨?_, ?_⟩
  · rw [TotalByPeriod_eq, Filter_eq, hpred]
    simp only [sumAmountsFrom, List.foldl_map, Slice.toList]
  · rw [TotalByPeriod_eq, TotalByPeriod_eq, Filter_eq, hpred]
    simp only [Slice.toList, List.filter_filter, Bool.and_self]

/-! ## Filter: composition -/

/-- C18: filtering by `P` and then by `Q` is filtering by `P and Q`; hence
filtering twice by the same predicate is filtering once, and filtering by
period then by category gives the slice that filtering by category then by
period gives. -/
theorem Filter_Filter {F : Type} (R : Slice (Record F)) (P Q : Record F → Bool) :
    Filter (Filter R P) Q = Filter R (fun r => P r && Q r) ∧
      Filter (Filter R P) P = Filter R P ∧
      ∀ (p : DaysPeriod) (c : String),
        Filter (Filter R (ByDaysPeriod p)) (ByCategory c)
          = Filter (Filter R (ByCategory c)) (ByDaysPeriod p) := by
  have comp : ∀ A B : Record F → Bool,
      Filter (Filter R A) B = Slice.mk (R.toList.filter (fun r => A r && B r)) := by
    intro A B
    rw [Filter_eq, Filter_eq]
    simp only [Slice.toList, List.filter_filter]
    congr 2
    funext r
    exact Bool.and_comm _ _
  refine ⟨?_, ?_, ?_⟩
  · rw [comp, Filter_eq]
  · rw [comp, Filter_eq]
    simp only [Bool.and_self]
  · intro p c
    rw [comp, comp]
    congr 2
    funext r
    exact Bool.and_comm _ _

end Expenses

namespace Sorting

/-! ## `strconv.Atoi` on decimal literals -/

theorem isDigit_iff (c : Char) : c.isDigit = true ↔ 48 ≤ c.toNat ∧ c.toNat ≤ 57 := by
  simp only [Char.isDigit, Bool.and_eq_true, decide_eq_true_eq, Char.toNat, ge_iff_le,
    UInt32.le_def, Fin.le_def]
  rfl

theorem maxUint64_eq : maxUint64 = 18446744073709551615 := by
  norm_num [maxUint64]

theorem le_digitsValueFrom (ds : List Char) (n : Nat) : n ≤ digitsValueFrom n ds := by
  induction ds generalizing n with
  | nil => exact Nat.le_refl n
  | cons c cs ih =>
    have h := ih (n * 10 + (c.toNat - 48))
    simp only [digitsValueFrom, List.foldl_cons] at h ⊢
    omega

theorem parseUintLoop_digits (maxVal : Nat) (hmax : maxVal ≤ maxUint64) (ds : List Char)
    (n : Nat) (hdig : ds.all Char.isDigit = true) (hval : digitsValueFrom n ds ≤ maxVal) :
    parseUintLoop maxVal ds n = (digitsValueFrom n ds, none) := by
  induction ds generalizing n with
  | nil => rfl
  | cons c cs ih =>
    rw [List.all_cons, Bool.and_eq_true] at hdig
    have hc := (isDigit_iff c).mp hdig.1
    have hstep : digitsValueFrom n (c :: cs) = digitsValueFrom (n * 10 + (c.toNat - 48)) cs := rfl
    rw [hstep] at hval ⊢
    have hle := le_digitsValueFrom cs (n * 10 + (c.toNat - 48))
    rw [maxUint64_eq] at hmax
    have h0 : '0'.toNat = 48 := rfl
    have h9 : '9'.toNat = 57 := rfl
    have hmod : (n * 10 + (c.toNat - 48)) % 2 ^ 64 = n * 10 + (c.toNat - 48) :=
      Nat.mod_eq_of_lt (by norm_num; omega)
    have hcut : ¬ (n ≥ maxUint64 / 10 + 1) := by
      rw [maxUint64_eq]; omega
    have hover : ¬ (n * 10 + (c.toNat - 48) < n * 10 ∨ n * 10 + (c.toNat - 48) > maxVal) := by
      omega
    simp only [parseUintLoop, h0, h9, hc.1, hc.2, decide_True, Bool.and_self, if_true, hcut,
      if_false, hmod, hover]
    exact ih _ hdig.2 hval


theorem ParseUint_digits (bitSize : Nat) (h64 : bitSize ≤ 64) (ds : List Char)
    (hne : ds ≠ []) (hdig : ds.all Char.isDigit = true)
    (hval : digitsValueFrom 0 ds ≤ 2 ^ bitSize - 1) :
    ParseUint bitSize ds = (digitsValueFrom 0 ds, none) := by
  have hmax : 2 ^ bitSize - 1 ≤ maxUint64 := by
    have := Nat.pow_le_pow_right (by norm_num : 0 < 2) h64
    simp only [maxUint64]
    omega
  cases ds with
  | nil => exact absurd rfl hne
  | cons c cs => exact parseUintLoop_digits _ hmax (c :: cs) 0 hdig hval

theorem Atoi_literal (intSize : Nat) (h1 : 1 ≤ intSize) (h64 : intSize ≤ 64) (s : String)
    (hlit : isDecimalLiteral s = true)
    (hlo : -(2 ^ (intSize - 1) : Int) ≤ literalValue s)
    (hhi : literalValue s ≤ 2 ^ (intSize - 1) - 1) :
    Atoi intSize s = (literalValue s, none) := by
  have hpow : 2 ^ intSize = 2 * 2 ^ (intSize - 1) := by
    obtain ⟨k, rfl⟩ : ∃ k, intSize = k + 1 := ⟨intSize - 1, by omega⟩
    simp [pow_succ, Nat.mul_comm]
  have hpos : 0 < 2 ^ (intSize - 1) := Nat.pow_pos (by norm_num)
  simp only [isDecimalLiteral, Bool.and_eq_true, Bool.not_eq_true', List.isEmpty_eq_false] at hlit
  obtain ⟨hne, hdig⟩ := hlit
  unfold Atoi ParseInt
  unfold literalValue at hlo hhi ⊢
  unfold literalDigits at hne hdig hlo hhi ⊢
  cases hs : s.data with
  | nil => simp [hs] at hne
  | cons c cs =>
    simp only [hs] at hne hdig hlo hhi ⊢
    generalize hbody : (if c = '+' ∨ c = '-' then cs else c :: cs) = body at hne hdig hlo hhi ⊢
    generalize hC : 2 ^ (intSize - 1) = C at hpow hpos hlo hhi ⊢
    generalize hV : digitsValueFrom 0 body = V at hlo hhi ⊢
    have hCcast : ((2 : Int) ^ (intSize - 1)) = (C : Int) := by
      rw [← hC]; push_cast; rfl
    rw [hCcast] at hlo hhi
    by_cases hneg : c = '-'
    · simp only [hneg, List.head?_cons, if_true] at hlo hhi ⊢
      have hVC : V ≤ C := by omega
      have hU : ParseUint intSize body = (V, none) := by
        rw [← hV]
        exact ParseUint_digits intSize h64 body hne hdig (by rw [hV, hpow]; omega)
      have hgt : ¬ (V > C) := by omega
      simp [hU, hgt]
    · have hhead : ¬ ((c :: cs).head? = some '-') := by
        simpa using hneg
      simp only [hhead, if_false] at hlo hhi ⊢
      have hVC : V + 1 ≤ C := by omega
      have hU : ParseUint intSize body = (V, none) := by
        rw [← hV]
        exact ParseUint_digits intSize h64 body hne hdig (by rw [hV, hpow]; omega)
      have hge : ¬ (V ≥ C) := by omega
      simp [hU, hneg, hge]

/-! ## ExtractFancyNumber -/

/-- C13, as stated, fails: the decimal literal `9223372036854775808` denotes
an integer one past the largest 64-bit `int`, and `ExtractFancyNumber` returns
the largest `int` for it, on 64-bit and on 32-bit platforms alike. -/
theorem ExtractFancyNumber_literal_out_of_range :
    isDecimalLiteral "9223372036854775808" = true ∧
      literalValue "9223372036854775808" = 9223372036854775808 ∧
      ExtractFancyNumber 64 (FancyNumberBox.fancyNumber ⟨"9223372036854775808"⟩)
        = 9223372036854775807 ∧
      ExtractFancyNumber 64 (FancyNumberBox.fancyNumber ⟨"9223372036854775808"⟩)
        ≠ literalValue "9223372036854775808" ∧
      ExtractFancyNumber 32 (FancyNumberBox.fancyNumber ⟨"9223372036854775808"⟩)
        ≠ literalValue "9223372036854775808" := by
  decide

/-- C13, amended: for an `int` of `intSize` bits, `ExtractFancyNumber` returns
the integer that `n` denotes when its argument is the `FancyNumber` of a
decimal integer literal `n` whose value lies in the range of `int`, and
returns 0 for every other `FancyNumberBox`, whatever its `Value()` yields. -/
theorem ExtractFancyNumber_literal_in_range (intSize : Nat) (h1 : 1 ≤ intSize)
    (h64 : intSize ≤ 64) (n : String) (hlit : isDecimalLiteral n = true)
    (hlo : -(2 ^ (intSize - 1) : Int) ≤ literalValue n)
    (hhi : literalValue n ≤ 2 ^ (intSize - 1) - 1) :
    ExtractFancyNumber intSize (FancyNumberBox.fancyNumber ⟨n⟩) = literalValue n ∧
      (∀ value : String, ExtractFancyNumber intSize (FancyNumberBox.other value) = 0) ∧
      ExtractFancyNumber intSize FancyNumberBox.nil = 0 := by
  refine ⟨?_, fun _ => rfl, rfl⟩
  simp only [ExtractFancyNumber, FancyNumber.Value]
  rw [Atoi_literal intSize h1 h64 n hlit hlo hhi]

/-- C13, amended, at an input: the smallest 64-bit `int`. -/
theorem ExtractFancyNumber_literal_in_range_witness :
    literalValue "-9223372036854775808" = -9223372036854775808 ∧
      ExtractFancyNumber 64 (FancyNumberBox.fancyNumber ⟨"-9223372036854775808"⟩)
        = literalValue "-9223372036854775808" :=
  ⟨by decide,
    (ExtractFancyNumber_literal_in_range 64 (by decide) (by decide) "-9223372036854775808"
      (by decide) (by decide) (by decide)).1⟩

/-! ## DescribeAnything -/

/-- C14 fails on the code: a value that is a `NumberBox` is never a
`FancyNumber`, so `DescribeAnything` answers `Return to sender` for it, which
is not the description `DescribeNumberBox` gives. -/
theorem DescribeAnything_NumberBox_not_described {F : Type} (lib : Float64Lib F)
    (number : Int) (value : Option String) :
    Any.asNumberBox (Any.other (some number) value) = some ⟨number⟩ ∧
      DescribeAnything lib (Any.other (some number) value) = "Return to sender" ∧
      DescribeAnything lib (Any.other (some number) value) ≠ DescribeNumberBox lib ⟨number⟩ := by
  refine ⟨rfl, rfl, ?_⟩
  intro h
  have hdata := congrArg String.data h
  simp [DescribeAnything, DescribeNumberBox, String.data_append] at hdata

/-- C19: `DescribeAnything` is `DescribeFancyNumberBox` on a `FancyNumber` and
the string `Return to sender` on every other value, among them the values of
any other type that implements `FancyNumberBox`. -/
theorem DescribeAnything_cases {F : Type} (lib : Float64Lib F) :
    (∀ fn : FancyNumber,
        DescribeAnything lib (Any.fancyNumber fn)
          = DescribeFancyNumberBox lib (FancyNumberBox.fancyNumber fn)) ∧
      (∀ (number : Option Int) (value : Option String),
        DescribeAnything lib (Any.other number value) = "Return to sender") ∧
      (∀ (number : Option Int) (value : String),
        DescribeAnything lib (Any.other number (some value)) = "Return to sender") :=
  ⟨fun _ => rfl, fun _ _ => rfl, fun _ _ => rfl⟩

end Sorting
